import Mathlib

/-!
Verification of the archetype storage core (`archetype.rs`) and the borrow
guard (`borrow.rs`) of the hecs repository.

Modelling conventions:
* `usize` arithmetic is `Nat` with an explicit `% USIZE` where wrapping
  matters (the two's-complement negation inside `align`).
* Byte buffers are total functions `Nat → Nat` from address to byte;
  `ptr::copy_nonoverlapping` becomes the functional update `writeBytesFrom`.
* The `FxHashMap<TypeId, usize>` offset table is an association list looked
  up with `lookupOff`; `TypeId` is modelled as `Nat`.
* Calls through a `TypeInfo`'s type-erased destructor are recorded as drop
  events `(type id, bytes of the dropped value)`; `unwrap`/panic paths make
  operations return `Option`.
-/

set_option maxHeartbeats 1000000
set_option maxRecDepth 8000

namespace Hecs

/-- Modulus of the 64-bit `usize` arithmetic used by `align`. -/
def USIZE : Nat := 2 ^ 64

/-- The `!0` sentinel entity id (`u32::MAX`) used for unoccupied slots. -/
def SENTINEL : Nat := 2 ^ 32 - 1

/-- Rust `std::alloc::Layout`: byte size and alignment of a component type. -/
structure Layout where
  size : Nat
  align : Nat
deriving DecidableEq

/-- Rust `TypeInfo`: runtime type descriptor (type id and layout).  The stored
destructor function is modelled by the drop events the operations record. -/
structure TypeInfo where
  id : Nat
  layout : Layout
deriving DecidableEq

/-- Model of `impl Ord for TypeInfo`: order by alignment descending, ties broken by
ascending type id (`align.cmp(..).reverse().then_with(|| id.cmp(..))`). -/
def TypeInfo.cmp (a b : TypeInfo) : Ordering :=
  ((compare a.layout.align b.layout.align).swap).then (compare a.id b.id)

/-- Model of `fn align(x, alignment) = (x + alignment - 1) & (!alignment + 1)` on
`usize`; `!alignment + 1` is the wrapped two's-complement negation. -/
def align (x alignment : Nat) : Nat :=
  ((x + alignment - 1) % USIZE) &&& ((USIZE - 1 - alignment + 1) % USIZE)

/-- Byte-buffer update for `ptr::copy_nonoverlapping(srcOff, dstOff, n)`,
reading the source bytes from buffer `src` and writing into `dst`. -/
def writeBytesFrom (dst : Nat → Nat) (dstOff : Nat) (src : Nat → Nat)
    (srcOff n : Nat) : Nat → Nat :=
  fun a => if dstOff ≤ a ∧ a < dstOff + n then src (srcOff + (a - dstOff)) else dst a

/-- The `n` bytes of buffer `d` starting at address `start`. -/
def readBytes (d : Nat → Nat) (start n : Nat) : List Nat :=
  (List.range n).map fun j => d (start + j)

/-- Lookup in the `offsets: FxHashMap<TypeId, usize>` table. -/
def lookupOff (offs : List (Nat × Nat)) (t : Nat) : Option Nat :=
  (offs.find? fun p => p.1 == t).map (·.2)

/-- The `Archetype` state: type list, offset table, live count, entity-id
slice, byte buffer and its allocated size. -/
structure Archetype where
  types : List TypeInfo
  offsets : List (Nat × Nat)
  len : Nat
  entities : List Nat
  data : Nat → Nat
  dataSize : Nat

/-- Model of `Archetype::new`: empty entity slice, empty offset table, empty buffer. -/
def Archetype.new (types : List TypeInfo) : Archetype :=
  { types := types, offsets := [], len := 0, entities := [],
    data := fun _ => 0, dataSize := 0 }

/-- Model of `Archetype::data::<T>()`: the base offset of `T`'s column, or `none`
when the offset table has no entry for the queried type id. -/
def Archetype.dataLookup (a : Archetype) (t : Nat) : Option Nat :=
  lookupOff a.offsets t

/-- A recorded destructor invocation: the type id and the bytes of the
value the destructor was handed. -/
abbrev DropEvent := Nat × List Nat

/-- Rust `AtomicBorrow` from `borrow.rs`: the atomic counter word. -/
structure AtomicBorrow where
  value : Nat
deriving DecidableEq

/-- Model of `AtomicBorrow::new()`. -/
def AtomicBorrow.new : AtomicBorrow := ⟨0⟩

/-- Model of `AtomicBorrow::borrow`, which returns `true` — the source
unconditionally succeeds and never touches the counter. -/
def AtomicBorrow.borrow (b : AtomicBorrow) : AtomicBorrow × Bool := (b, true)

/-- Model of `AtomicBorrow::borrow_mut`, which returns `true` — unconditional
success, no bookkeeping. -/
def AtomicBorrow.borrow_mut (b : AtomicBorrow) : AtomicBorrow × Bool := (b, true)

/-- Model of `AtomicBorrow::release`, a no-op in the source. -/
def AtomicBorrow.release (b : AtomicBorrow) : AtomicBorrow := b

/-- Model of `AtomicBorrow::release_mut`, a no-op in the source. -/
def AtomicBorrow.release_mut (b : AtomicBorrow) : AtomicBorrow := b

/-- C9: the descriptor ordering places `a` before `b` exactly when `a`'s
alignment is greater, or the alignments are equal and `a`'s type id is
smaller (alignment descending, ties broken by id ascending). -/
theorem typeInfo_cmp_lt_iff (a b : TypeInfo) :
    TypeInfo.cmp a b = Ordering.lt ↔
      (b.layout.align < a.layout.align ∨
        (a.layout.align = b.layout.align ∧ a.id < b.id)) := by
  unfold TypeInfo.cmp
  rcases h : compare a.layout.align b.layout.align with _ | _ | _
  · have h' : a.layout.align < b.layout.align := Nat.compare_eq_lt.mp h
    simp only [Ordering.swap, Ordering.then]
    constructor
    · intro hc; exact absurd hc (by simp)
    · rintro (hlt | ⟨heq, _⟩) <;> omega
  · have h' : a.layout.align = b.layout.align := Nat.compare_eq_eq.mp h
    simp only [Ordering.swap, Ordering.then]
    constructor
    · intro hc
      exact Or.inr ⟨h', Nat.compare_eq_lt.mp hc⟩
    · rintro (hlt | ⟨_, hid⟩)
      · omega
      · exact Nat.compare_eq_lt.mpr hid
  · have h' : b.layout.align < a.layout.align := Nat.compare_eq_gt.mp h
    simp only [Ordering.swap, Ordering.then]
    exact ⟨fun _ => Or.inl h', fun _ => trivial⟩

/-- C5: evaluating the borrow-guard source at the failing scenario — from
the `Free` state a successful `acquire_shared` (`borrow`) followed by
`acquire_exclusive` (`borrow_mut`) still reports success, and so does
`acquire_shared` while an exclusive acquisition is held, contradicting the
guard's documented reader/writer contract and its own tests. -/
theorem borrow_guard_stub_grants_everything :
    ((AtomicBorrow.new.borrow).1.borrow_mut).2 = true ∧
      ((AtomicBorrow.new.borrow_mut).1.borrow).2 = true ∧
      (AtomicBorrow.new.borrow).1.release = AtomicBorrow.new := by
  exact ⟨rfl, rfl, rfl⟩

/-- C6 counterexample: on a freshly constructed archetype the offset table
is empty, so column lookup of a registered type signals absence. -/
theorem dataLookup_registered_absent_counterexample :
    (⟨0, ⟨4, 4⟩⟩ : TypeInfo) ∈ (Archetype.new [⟨0, ⟨4, 4⟩⟩]).types ∧
      (Archetype.new [⟨0, ⟨4, 4⟩⟩]).dataLookup 0 = none := by
  constructor
  · simp [Archetype.new]
  · rfl

/-- Clearing the low `k` bits with the mask `2^64 - 2^k` rounds down to a
multiple of `2^k`, for any word-sized value. -/
lemma land_high_mask (y k : Nat) (hy : y < USIZE) (hk : k ≤ 64) :
    y &&& (USIZE - 2 ^ k) = y - y % 2 ^ k := by
  have hmask : USIZE - 2 ^ k = (2 ^ (64 - k) - 1) <<< k := by
    have h1 : 2 ^ (64 - k) * 2 ^ k = 2 ^ 64 := by
      rw [← Nat.pow_add]; congr 1; omega
    rw [Nat.shiftLeft_eq, Nat.sub_mul, one_mul, h1]
    rfl
  have hdm := Nat.div_add_mod y (2 ^ k)
  have hsub : y - y % 2 ^ k = 2 ^ k * (y / 2 ^ k) := Nat.sub_eq_of_eq_add hdm.symm
  have hrhs : y - y % 2 ^ k = (y >>> k) <<< k := by
    rw [Nat.shiftRight_eq_div_pow, Nat.shiftLeft_eq, hsub, Nat.mul_comm]
  rw [hmask, hrhs]
  apply Nat.eq_of_testBit_eq
  intro i
  rw [Nat.testBit_land, Nat.testBit_shiftLeft, Nat.testBit_shiftLeft,
    Nat.testBit_shiftRight, Nat.testBit_two_pow_sub_one]
  by_cases hki : k ≤ i
  · by_cases h64 : i < 64
    · have hik : k + (i - k) = i := by omega
      simp [hki, hik, show i - k < 64 - k by omega, ge_iff_le]
    · have hyi : y.testBit i = false :=
        Nat.testBit_lt_two_pow
          (lt_of_lt_of_le hy (Nat.pow_le_pow_right (by norm_num) (by omega)))
      have hik : k + (i - k) = i := by omega
      simp [hki, hik, hyi, show ¬ (i - k < 64 - k) by omega, ge_iff_le]
  · simp [hki, ge_iff_le]

/-- C10: for a power-of-two, word-representable alignment `a` such that
`x + a - 1` does not overflow, `align x a` is the least multiple of `a`
at or above `x`: it is a multiple of `a`, at least `x`, and below `x + a`. -/
theorem align_least_multiple (x a : Nat) (ha : ∃ k, a = 2 ^ k)
    (haU : a < USIZE) (hov : x + a - 1 < USIZE) :
    align x a % a = 0 ∧ x ≤ align x a ∧ align x a < x + a := by
  obtain ⟨k, rfl⟩ := ha
  have hpos : 0 < 2 ^ k := Nat.pow_pos (by norm_num)
  have hk : k ≤ 64 := by
    by_contra hgt
    have h2 : (2 : Nat) ^ 64 ≤ 2 ^ k := Nat.pow_le_pow_right (by norm_num) (by omega)
    unfold USIZE at haU
    omega
  set y := x + 2 ^ k - 1 with hy
  have hyU : y < USIZE := hov
  have hUpos : 0 < USIZE := by unfold USIZE; positivity
  have halign : align x (2 ^ k) = y &&& (USIZE - 2 ^ k) := by
    unfold align
    have h2 : USIZE - 1 - 2 ^ k + 1 = USIZE - 2 ^ k := by omega
    rw [h2, Nat.mod_eq_of_lt hyU, Nat.mod_eq_of_lt (by omega)]
  have hmod : y % 2 ^ k < 2 ^ k := Nat.mod_lt y hpos
  have hdm := Nat.div_add_mod y (2 ^ k)
  have hsub : y - y % 2 ^ k = 2 ^ k * (y / 2 ^ k) := Nat.sub_eq_of_eq_add hdm.symm
  rw [halign, land_high_mask y k hyU hk]
  refine ⟨?_, ?_, ?_⟩
  · rw [hsub, Nat.mul_mod_right]
  · omega
  · omega

/-- Witness for C10 at `x = 5`, `a = 4`. -/
theorem align_least_multiple_witness :
    align 5 4 % 4 = 0 ∧ 5 ≤ align 5 4 ∧ align 5 4 < 5 + 4 :=
  align_least_multiple 5 4 ⟨2, rfl⟩ (by decide) (by decide)

/-- Rust's `usize::is_power_of_two` for a representable alignment. -/
def isPow2B (n : Nat) : Bool :=
  (List.range 64).any fun k => n == 2 ^ k

lemma isPow2B_spec (n : Nat) (h : isPow2B n = true) :
    (∃ k, n = 2 ^ k) ∧ n < USIZE := by
  unfold isPow2B at h
  rw [List.any_eq_true] at h
  obtain ⟨k, hk, hn⟩ := h
  rw [List.mem_range] at hk
  rw [beq_iff_eq] at hn
  refine ⟨⟨k, hn⟩, ?_⟩
  rw [hn]
  unfold USIZE
  exact Nat.pow_lt_pow_right (by norm_num) hk

/-- The offset-computation loop of `Archetype::allocate`:
`for ty { data_size = align(data_size, align); insert(id, data_size);
data_size += size * count }`, returning the offset table and total size. -/
def computeOffsets (count : Nat) : List TypeInfo → Nat → List (Nat × Nat) × Nat
  | [], ds => ([], ds)
  | ty :: rest, ds =>
    let r := computeOffsets count rest
      (align ds ty.layout.align + ty.layout.size * count)
    ((ty.id, align ds ty.layout.align) :: r.1, r.2)

lemma computeOffsets_cons (count : Nat) (ty : TypeInfo) (rest : List TypeInfo)
    (ds : Nat) :
    computeOffsets count (ty :: rest) ds =
      ((ty.id, align ds ty.layout.align) ::
          (computeOffsets count rest
            (align ds ty.layout.align + ty.layout.size * count)).1,
        (computeOffsets count rest
          (align ds ty.layout.align + ty.layout.size * count)).2) := rfl

/-- The offset loop encounters no `usize` overflow in its `align` calls. -/
def offsetsFitB (count : Nat) : List TypeInfo → Nat → Bool
  | [], _ => true
  | ty :: rest, ds =>
    decide (ds + ty.layout.align - 1 < USIZE) &&
      offsetsFitB count rest (align ds ty.layout.align + ty.layout.size * count)

lemma lookupOff_nil (t : Nat) : lookupOff [] t = none := rfl

lemma computeOffsets_nil (count ds : Nat) :
    computeOffsets count [] ds = ([], ds) := rfl

lemma lookupOff_cons (p : Nat × Nat) (offs : List (Nat × Nat)) (t : Nat) :
    lookupOff (p :: offs) t = if p.1 = t then some p.2 else lookupOff offs t := by
  unfold lookupOff
  rw [List.find?_cons]
  by_cases h : p.1 = t
  · have hb : (p.1 == t) = true := beq_iff_eq.mpr h
    rw [hb, if_pos h]
    rfl
  · have hb : (p.1 == t) = false := by simp [h]
    rw [hb, if_neg h]

lemma lookupOff_computeOffsets (count : Nat) (tys : List TypeInfo) (ds t : Nat) :
    (lookupOff (computeOffsets count tys ds).1 t).isSome = true ↔
      t ∈ tys.map (·.id) := by
  induction tys generalizing ds with
  | nil =>
    rw [computeOffsets_nil]
    simp [lookupOff_nil]
  | cons ty rest ih =>
    rw [computeOffsets_cons, lookupOff_cons]
    by_cases h : ty.id = t
    · simp [h]
    · rw [if_neg h, ih (align ds ty.layout.align + ty.layout.size * count)]
      simp only [List.map_cons, List.mem_cons]
      constructor
      · exact Or.inr
      · rintro (hc | hc)
        · exact absurd hc.symm h
        · exact hc

/-- C7: every column offset assigned by the offset-computation loop of
`allocate` is a multiple of that type's alignment, for any capacity and
any starting size, provided the alignments are representable powers of two
and the loop does not overflow. -/
theorem computeOffsets_aligned (count : Nat) (types : List TypeInfo) (ds : Nat)
    (hpow : types.all (fun ty => isPow2B ty.layout.align) = true)
    (hfit : offsetsFitB count types ds = true) :
    List.Forall₂ (fun ty p => p.1 = ty.id ∧ p.2 % ty.layout.align = 0)
      types (computeOffsets count types ds).1 := by
  induction types generalizing ds with
  | nil => exact List.Forall₂.nil
  | cons ty rest ih =>
    rw [List.all_cons, Bool.and_eq_true] at hpow
    unfold offsetsFitB at hfit
    rw [Bool.and_eq_true, decide_eq_true_eq] at hfit
    obtain ⟨hk, hU⟩ := isPow2B_spec _ hpow.1
    rw [computeOffsets_cons]
    exact List.Forall₂.cons
      ⟨rfl, (align_least_multiple ds ty.layout.align hk hU hfit.1).1⟩
      (ih _ hpow.2 hfit.2)

/-- A type set with mixed alignments: 1-byte, 8-byte and 16-byte types. -/
def mixedTypes : List TypeInfo := [⟨0, ⟨1, 1⟩⟩, ⟨1, ⟨8, 8⟩⟩, ⟨2, ⟨16, 16⟩⟩]

/-- Witness for C7: three registered types of alignments 1, 8 and 16 at
capacity 64. -/
theorem computeOffsets_aligned_witness :
    List.Forall₂ (fun ty p => p.1 = ty.id ∧ p.2 % ty.layout.align = 0)
      mixedTypes (computeOffsets 64 mixedTypes 0).1 :=
  computeOffsets_aligned 64 mixedTypes 0 (by decide) (by decide)

/-- One `ptr::copy_nonoverlapping` performed while growing the buffer. -/
structure CopyOp where
  srcOff : Nat
  dstOff : Nat
  nbytes : Nat
deriving DecidableEq

/-- The copy loop of a growing `allocate`: for each registered type, copy
`size * self.entities.len()` bytes — where `entities` has already been
replaced, so this is the NEW capacity — from the old offset to the new. -/
def growCopies (oldOffs newOffs : List (Nat × Nat)) (newCap : Nat) :
    List TypeInfo → Option (List CopyOp)
  | [] => some []
  | ty :: rest =>
    match lookupOff oldOffs ty.id, lookupOff newOffs ty.id with
    | some o, some n =>
      match growCopies oldOffs newOffs newCap rest with
      | some ops => some (⟨o, n, ty.layout.size * newCap⟩ :: ops)
      | none => none
    | _, _ => none

/-- Replay the copy operations, reading every source range from the old
buffer `src`, into a fresh (uninitialised, modelled as zero) buffer. -/
def applyCopies (src : Nat → Nat) : List CopyOp → (Nat → Nat) → (Nat → Nat)
  | [], d => d
  | op :: rest, d =>
    applyCopies src rest (writeBytesFrom d op.dstOff src op.srcOff op.nbytes)

/-- Model of `Archetype::allocate`.  Returns the updated archetype, the index handed
out, and the copy operations a growth performed (`[]` when no growth). -/
def Archetype.allocate (a : Archetype) (id : Nat) :
    Option (Archetype × Nat × List CopyOp) :=
  if a.len < a.entities.length then
    some ({ a with entities := a.entities.set a.len id, len := a.len + 1 },
      a.len, [])
  else
    let count := if a.entities.length = 0 then 64 else a.entities.length * 2
    let newEntities := a.entities ++ List.replicate (count - a.entities.length) SENTINEL
    let offs := (computeOffsets count a.types 0).1
    match (if a.dataSize ≠ 0 then growCopies a.offsets offs count a.types
           else some []) with
    | none => none
    | some ops =>
      some ({ types := a.types, offsets := offs, len := a.len + 1,
              entities := newEntities.set a.len id,
              data := applyCopies a.data ops (fun _ => 0),
              dataSize := (computeOffsets count a.types 0).2 },
        a.len, ops)

lemma growCopies_some (oldOffs newOffs : List (Nat × Nat)) (newCap : Nat)
    (tys : List TypeInfo)
    (h1 : ∀ ty ∈ tys, (lookupOff oldOffs ty.id).isSome = true)
    (h2 : ∀ ty ∈ tys, (lookupOff newOffs ty.id).isSome = true) :
    ∃ ops, growCopies oldOffs newOffs newCap tys = some ops := by
  induction tys with
  | nil => exact ⟨[], rfl⟩
  | cons ty rest ih =>
    obtain ⟨o, ho⟩ := Option.isSome_iff_exists.mp (h1 ty (by simp))
    obtain ⟨n, hn⟩ := Option.isSome_iff_exists.mp (h2 ty (by simp))
    obtain ⟨ops, hops⟩ := ih (fun t ht => h1 t (by simp [ht]))
      (fun t ht => h2 t (by simp [ht]))
    refine ⟨⟨o, n, ty.layout.size * newCap⟩ :: ops, ?_⟩
    unfold growCopies
    rw [ho, hn, hops]

/-- The result of `allocate` on a non-full archetype. -/
lemma allocate_nogrow_eq (a : Archetype) (id : Nat)
    (hfull : a.len < a.entities.length) :
    a.allocate id = some
      ({ a with entities := a.entities.set a.len id, len := a.len + 1 },
        a.len, []) := by
  unfold Archetype.allocate
  rw [if_pos hfull]

/-- The result of `allocate` on a full archetype, given the copy
operations the growth performs. -/
lemma allocate_grow_eq (a : Archetype) (id : Nat) (ops : List CopyOp)
    (hfull : ¬ a.len < a.entities.length)
    (hops : (if a.dataSize ≠ 0 then
        growCopies a.offsets
          (computeOffsets (if a.entities.length = 0 then 64
            else a.entities.length * 2) a.types 0).1
          (if a.entities.length = 0 then 64 else a.entities.length * 2)
          a.types
      else some []) = some ops) :
    a.allocate id = some
      ({ types := a.types,
         offsets := (computeOffsets (if a.entities.length = 0 then 64
           else a.entities.length * 2) a.types 0).1,
         len := a.len + 1,
         entities := (a.entities ++ List.replicate
           ((if a.entities.length = 0 then 64 else a.entities.length * 2)
             - a.entities.length) SENTINEL).set a.len id,
         data := applyCopies a.data ops (fun _ => 0),
         dataSize := (computeOffsets (if a.entities.length = 0 then 64
           else a.entities.length * 2) a.types 0).2 },
        a.len, ops) := by
  unfold Archetype.allocate
  rw [if_neg hfull]
  simp only [hops]

/-- A full archetype's growth has copy operations available whenever the
offset table covers the registered types (or the buffer is still empty). -/
lemma allocate_grow_ops (a : Archetype)
    (hold : a.dataSize ≠ 0 →
      ∀ ty ∈ a.types, (lookupOff a.offsets ty.id).isSome = true) :
    ∃ ops, (if a.dataSize ≠ 0 then
        growCopies a.offsets
          (computeOffsets (if a.entities.length = 0 then 64
            else a.entities.length * 2) a.types 0).1
          (if a.entities.length = 0 then 64 else a.entities.length * 2)
          a.types
      else some []) = some ops := by
  by_cases hd : a.dataSize = 0
  · exact ⟨[], by simp [hd]⟩
  · obtain ⟨ops, hops⟩ := growCopies_some a.offsets
      (computeOffsets (if a.entities.length = 0 then 64
        else a.entities.length * 2) a.types 0).1
      (if a.entities.length = 0 then 64 else a.entities.length * 2) a.types
      (hold hd)
      (fun ty ht => (lookupOff_computeOffsets _ _ _ _).mpr
        (List.mem_map_of_mem _ ht))
    exact ⟨ops, by simp only [hd, ne_eq, not_false_eq_true, if_pos, hops]⟩

/-- C8: `allocate` hands out the previous live count as the new slot's
index and increments the live count; the capacity is unchanged unless the
live count had reached it, in which case it becomes 64 from zero and
exactly doubles otherwise. -/
theorem allocate_capacity_spec (a : Archetype) (id : Nat)
    (hle : a.len ≤ a.entities.length)
    (hold : a.dataSize ≠ 0 →
      ∀ ty ∈ a.types, (lookupOff a.offsets ty.id).isSome = true) :
    ∃ a' ops, a.allocate id = some (a', a.len, ops) ∧
      a'.len = a.len + 1 ∧
      a'.entities.length =
        (if a.len < a.entities.length then a.entities.length
         else if a.entities.length = 0 then 64 else a.entities.length * 2) := by
  by_cases hfull : a.len < a.entities.length
  · exact ⟨_, [], allocate_nogrow_eq a id hfull, rfl, by simp [hfull]⟩
  · obtain ⟨ops, hops⟩ := allocate_grow_ops a hold
    refine ⟨_, ops, allocate_grow_eq a id ops hfull hops, rfl, ?_⟩
    rw [if_neg hfull]
    have hge : a.entities.length ≤
        (if a.entities.length = 0 then 64 else a.entities.length * 2) := by
      by_cases h0 : a.entities.length = 0
      · simp [h0]
      · rw [if_neg h0]
        omega
    rw [List.length_set, List.length_append, List.length_replicate]
    omega

/-- Witness for C8: first allocation on a freshly constructed archetype. -/
theorem allocate_capacity_spec_witness :
    ∃ a' ops, (Archetype.new []).allocate 7 = some (a', (Archetype.new []).len, ops) ∧
      a'.len = (Archetype.new []).len + 1 ∧
      a'.entities.length =
        (if (Archetype.new []).len < (Archetype.new []).entities.length then
          (Archetype.new []).entities.length
         else if (Archetype.new []).entities.length = 0 then 64
         else (Archetype.new []).entities.length * 2) :=
  allocate_capacity_spec (Archetype.new []) 7 (by decide) (by decide)

/-- A full archetype of one 1-byte type at capacity 64: the state reached
by 64 allocations from `Archetype::new`, about to grow. -/
def overgrowExample : Archetype :=
  { types := [⟨0, ⟨1, 1⟩⟩], offsets := [(0, 0)], len := 64,
    entities := List.replicate 64 0, data := fun _ => 0, dataSize := 64 }

/-- C2 (failing evaluation): growing from capacity 64 to 128 issues, for
the single 1-byte column, a copy of `size * 128 = 128` bytes out of an old
buffer that is only 64 bytes long — the source range of the copy overruns
the old allocation, instead of copying exactly the 64-byte live prefix. -/
theorem allocate_grow_copy_overrun :
    (overgrowExample.allocate 7).map (fun r => r.2.2) = some [⟨0, 0, 128⟩] ∧
      overgrowExample.dataSize = 64 ∧ overgrowExample.len = 64 ∧
      overgrowExample.dataSize < 0 + 128 := by
  exact ⟨rfl, rfl, rfl, by decide⟩

/-- C6 amended: column lookup signals absence exactly when the queried id
has no entry in the offset table; after an `allocate` that grows the
buffer, the table holds exactly the registered type ids, so lookup of a
registered type succeeds and lookup of an unregistered one signals
absence. -/
theorem allocate_grow_dataLookup_iff_registered (a : Archetype) (id t : Nat)
    (hfull : ¬ a.len < a.entities.length)
    (hold : a.dataSize ≠ 0 →
      ∀ ty ∈ a.types, (lookupOff a.offsets ty.id).isSome = true) :
    ∃ r, a.allocate id = some r ∧
      ((r.1.dataLookup t).isSome = true ↔ t ∈ a.types.map (·.id)) := by
  obtain ⟨ops, hops⟩ := allocate_grow_ops a hold
  exact ⟨_, allocate_grow_eq a id ops hfull hops,
    lookupOff_computeOffsets _ _ _ _⟩

/-- Witness for the amended C6: the first (growing) allocation on a fresh
archetype registering one type with id 0. -/
theorem allocate_grow_dataLookup_iff_registered_witness :
    ∃ r, (Archetype.new [⟨0, ⟨4, 4⟩⟩]).allocate 7 = some r ∧
      ((r.1.dataLookup 0).isSome = true ↔
        0 ∈ (Archetype.new [⟨0, ⟨4, 4⟩⟩]).types.map (·.id)) :=
  allocate_grow_dataLookup_iff_registered (Archetype.new [⟨0, ⟨4, 4⟩⟩]) 7 0
    (by decide) (by decide)

lemma writeBytesFrom_outside (dst src : Nat → Nat) (dstOff srcOff n addr : Nat)
    (h : addr < dstOff ∨ dstOff + n ≤ addr) :
    writeBytesFrom dst dstOff src srcOff n addr = dst addr := by
  unfold writeBytesFrom
  rw [if_neg]
  omega

lemma writeBytesFrom_inside (dst src : Nat → Nat) (dstOff srcOff n addr : Nat)
    (h1 : dstOff ≤ addr) (h2 : addr < dstOff + n) :
    writeBytesFrom dst dstOff src srcOff n addr = src (srcOff + (addr - dstOff)) := by
  unfold writeBytesFrom
  rw [if_pos ⟨h1, h2⟩]

lemma readBytes_congr (d1 d2 : Nat → Nat) (s1 s2 n : Nat)
    (h : ∀ j, j < n → d1 (s1 + j) = d2 (s2 + j)) :
    readBytes d1 s1 n = readBytes d2 s2 n := by
  unfold readBytes
  exact List.map_congr_left fun j hj => h j (List.mem_range.mp hj)

lemma readBytes_write_self (dst src : Nat → Nat) (dstOff srcOff n : Nat) :
    readBytes (writeBytesFrom dst dstOff src srcOff n) dstOff n =
      readBytes src srcOff n := by
  apply readBytes_congr
  intro j hj
  rw [writeBytesFrom_inside _ _ _ _ _ _ (by omega) (by omega)]
  congr 1
  omega

lemma readBytes_write_disjoint (dst src : Nat → Nat) (dstOff srcOff n s m : Nat)
    (h : s + m ≤ dstOff ∨ dstOff + n ≤ s) :
    readBytes (writeBytesFrom dst dstOff src srcOff n) s m = readBytes dst s m := by
  apply readBytes_congr
  intro j hj
  exact writeBytesFrom_outside _ _ _ _ _ _ (by omega)

/-- Column ranges of two registered types (for `cap` slots) do not
overlap, whenever both are present in the offset table. -/
def colDisjB (offs : List (Nat × Nat)) (cap : Nat) (t1 t2 : TypeInfo) : Bool :=
  match lookupOff offs t1.id, lookupOff offs t2.id with
  | some o1, some o2 =>
    decide (o1 + t1.layout.size * cap ≤ o2 ∨ o2 + t2.layout.size * cap ≤ o1)
  | _, _ => true

/-- All columns of a type list are pairwise disjoint. -/
def pairwiseDisjB (offs : List (Nat × Nat)) (cap : Nat) : List TypeInfo → Bool
  | [] => true
  | t :: rest =>
    (rest.all fun t2 => colDisjB offs cap t t2) && pairwiseDisjB offs cap rest

lemma colDisjB_spec (offs : List (Nat × Nat)) (cap : Nat) (t1 t2 : TypeInfo)
    (h : colDisjB offs cap t1 t2 = true) (o1 o2 : Nat)
    (h1 : lookupOff offs t1.id = some o1) (h2 : lookupOff offs t2.id = some o2) :
    o1 + t1.layout.size * cap ≤ o2 ∨ o2 + t2.layout.size * cap ≤ o1 := by
  unfold colDisjB at h
  rw [h1, h2] at h
  exact of_decide_eq_true h

lemma pairwiseDisjB_cons (offs : List (Nat × Nat)) (cap : Nat) (t : TypeInfo)
    (rest : List TypeInfo) (h : pairwiseDisjB offs cap (t :: rest) = true) :
    (∀ t2 ∈ rest, colDisjB offs cap t t2 = true) ∧
      pairwiseDisjB offs cap rest = true := by
  unfold pairwiseDisjB at h
  rw [Bool.and_eq_true, List.all_eq_true] at h
  exact h

/-- Slot ranges of two column-disjoint types never overlap, for any two
slot indices below the capacity. -/
lemma colDisjB_slot (offs : List (Nat × Nat)) (cap : Nat) (t1 t2 : TypeInfo)
    (o1 o2 s1 s2 : Nat) (hcd : colDisjB offs cap t1 t2 = true)
    (h1 : lookupOff offs t1.id = some o1) (h2 : lookupOff offs t2.id = some o2)
    (hs1 : s1 < cap) (hs2 : s2 < cap) :
    o1 + t1.layout.size * s1 + t1.layout.size ≤ o2 + t2.layout.size * s2 ∨
      o2 + t2.layout.size * s2 + t2.layout.size ≤ o1 + t1.layout.size * s1 := by
  have hor := colDisjB_spec offs cap t1 t2 hcd o1 o2 h1 h2
  have m1 := Nat.mul_le_mul_left t1.layout.size (show s1 + 1 ≤ cap from hs1)
  have m2 := Nat.mul_le_mul_left t2.layout.size (show s2 + 1 ≤ cap from hs2)
  rw [Nat.mul_succ] at m1 m2
  omega

/-- Distinct slots of one column never overlap. -/
lemma sameCol_slot (o size s1 s2 : Nat) (hne : s1 ≠ s2) :
    o + size * s1 + size ≤ o + size * s2 ∨
      o + size * s2 + size ≤ o + size * s1 := by
  rcases Nat.lt_or_ge s1 s2 with h | h
  · left
    have := Nat.mul_le_mul_left size (show s1 + 1 ≤ s2 from h)
    rw [Nat.mul_succ] at this
    omega
  · right
    have := Nat.mul_le_mul_left size (show s2 + 1 ≤ s1 from by omega)
    rw [Nat.mul_succ] at this
    omega

/-- The per-type loop body of `Archetype::remove`: invoke the destructor
on the value at `index` (recorded as a drop event carrying the dropped
bytes), then — when `index != last` — relocate the last slot's bytes into
`index`.  `none` models the `unwrap` panic on a missing offset. -/
def removeFold (offs : List (Nat × Nat)) (index last : Nat) :
    List TypeInfo → (Nat → Nat) → Option ((Nat → Nat) × List DropEvent)
  | [], d => some (d, [])
  | ty :: rest, d =>
    match lookupOff offs ty.id with
    | none => none
    | some base =>
      match removeFold offs index last rest
          (if index = last then d
           else writeBytesFrom d (base + ty.layout.size * index) d
             (base + ty.layout.size * last) ty.layout.size) with
      | none => none
      | some (df, evs) =>
        some (df,
          (ty.id, readBytes d (base + ty.layout.size * index) ty.layout.size) :: evs)

/-- Model of `Archetype::remove`: returns the updated archetype, the id of the
entity relocated into `index` (`none` when `index` was the last slot), and
the drop events performed. -/
def Archetype.remove (a : Archetype) (index : Nat) :
    Option (Archetype × Option Nat × List DropEvent) :=
  match removeFold a.offsets index (a.len - 1) a.types a.data with
  | none => none
  | some (d, evs) =>
    if index = a.len - 1 then
      some ({ a with data := d, len := a.len - 1 }, none, evs)
    else
      some ({ a with
              data := d
              len := a.len - 1
              entities := a.entities.set index (a.entities.getD (a.len - 1) 0) },
        some (a.entities.getD (a.len - 1) 0), evs)

lemma removeFold_spec (offs : List (Nat × Nat)) (index last cap : Nat)
    (hindex : index < cap) (hlast : last < cap) :
    ∀ (tys : List TypeInfo) (d : Nat → Nat),
    (∀ ty ∈ tys, (lookupOff offs ty.id).isSome = true) →
    pairwiseDisjB offs cap tys = true →
    ∃ df, removeFold offs index last tys d =
        some (df, tys.map fun ty =>
          (ty.id, readBytes d ((lookupOff offs ty.id).getD 0 + ty.layout.size * index)
            ty.layout.size)) ∧
      (∀ addr, (∀ ty ∈ tys, ∀ o, lookupOff offs ty.id = some o →
          addr < o + ty.layout.size * index ∨
            o + ty.layout.size * index + ty.layout.size ≤ addr) →
        df addr = d addr) ∧
      (index ≠ last → ∀ ty ∈ tys, ∀ o, lookupOff offs ty.id = some o →
        readBytes df (o + ty.layout.size * index) ty.layout.size =
          readBytes d (o + ty.layout.size * last) ty.layout.size) ∧
      (index = last → df = d) := by
  intro tys
  induction tys with
  | nil =>
    intro d _ _
    exact ⟨d, rfl, fun _ _ => rfl, fun _ ty ht => absurd ht (List.not_mem_nil ty),
      fun _ => rfl⟩
  | cons ty rest ih =>
    intro d hsome hdisj
    obtain ⟨hd2, hrest⟩ := pairwiseDisjB_cons offs cap ty rest hdisj
    obtain ⟨o, ho⟩ := Option.isSome_iff_exists.mp (hsome ty (by simp))
    by_cases hil : index = last
    · -- no relocation: the buffer is passed through unchanged
      obtain ⟨df, heq, hconf, _, hid⟩ :=
        ih d (fun t ht => hsome t (by simp [ht])) hrest
      have hdf : df = d := hid hil
      refine ⟨df, ?_, ?_, fun hne => absurd hil hne, fun _ => hdf⟩
      · unfold removeFold
        simp only [ho, if_pos hil, heq, hdf, List.map_cons, Option.getD_some]
      · intro addr _
        rw [hdf]
    · -- relocate slot `last` into slot `index` column by column
      set w := writeBytesFrom d (o + ty.layout.size * index) d
        (o + ty.layout.size * last) ty.layout.size with hw
      obtain ⟨df, heq, hconf, hmove, _⟩ :=
        ih w (fun t ht => hsome t (by simp [ht])) hrest
      have hwoutside : ∀ t2 ∈ rest, ∀ o2, lookupOff offs t2.id = some o2 →
          ∀ s2, s2 < cap →
          readBytes w (o2 + t2.layout.size * s2) t2.layout.size =
            readBytes d (o2 + t2.layout.size * s2) t2.layout.size := by
        intro t2 ht2 o2 ho2 s2 hs2
        have hsl := colDisjB_slot offs cap ty t2 o o2 index s2
          (hd2 t2 ht2) ho ho2 hindex hs2
        exact readBytes_write_disjoint _ _ _ _ _ _ _ (by omega)
      have hev : (rest.map fun t2 =>
          (t2.id, readBytes w ((lookupOff offs t2.id).getD 0 + t2.layout.size * index)
            t2.layout.size)) =
          rest.map fun t2 =>
            (t2.id, readBytes d ((lookupOff offs t2.id).getD 0 + t2.layout.size * index)
              t2.layout.size) := by
        apply List.map_congr_left
        intro t2 ht2
        obtain ⟨o2, ho2⟩ := Option.isSome_iff_exists.mp (hsome t2 (by simp [ht2]))
        rw [ho2, Option.getD_some]
        exact congrArg _ (hwoutside t2 ht2 o2 ho2 index hindex)
      refine ⟨df, ?_, ?_, ?_, fun h => absurd h hil⟩
      · unfold removeFold
        simp only [ho, if_neg hil, ← hw, heq, hev, List.map_cons, Option.getD_some]
      · intro addr havoid
        have h1 : df addr = w addr := by
          apply hconf
          intro t2 ht2 o2 ho2
          exact havoid t2 (by simp [ht2]) o2 ho2
        rw [h1, hw]
        apply writeBytesFrom_outside
        have := havoid ty (by simp) o ho
        omega
      · intro _ t htmem o1 ho1
        rcases List.mem_cons.mp htmem with rfl | htrest
        · -- the head column: the write is exactly this slot
          have ho1o : o1 = o := by
            rw [ho] at ho1
            exact (Option.some_inj.mp ho1).symm
          subst ho1o
          have hdfw : readBytes df (o1 + t.layout.size * index) t.layout.size =
              readBytes w (o1 + t.layout.size * index) t.layout.size := by
            apply readBytes_congr
            intro j hj
            apply hconf
            intro t2 ht2 o2 ho2
            have hsl := colDisjB_slot offs cap t t2 o1 o2 index index
              (hd2 t2 ht2) ho1 ho2 hindex hindex
            omega
          rw [hdfw, hw]
          exact readBytes_write_self _ _ _ _ _
        · have h1 := hmove hil t htrest o1 ho1
          rw [h1]
          exact hwoutside t htrest o1 ho1 last hlast

/-- Full specification of `Archetype::remove` on a well-formed archetype:
result fields, returned id, drop events, and how the buffer changed. -/
lemma remove_spec (a : Archetype) (index : Nat)
    (hsome : ∀ ty ∈ a.types, (lookupOff a.offsets ty.id).isSome = true)
    (hdisj : pairwiseDisjB a.offsets a.entities.length a.types = true)
    (hlen : 0 < a.len) (hcap : a.len ≤ a.entities.length)
    (hindex : index < a.entities.length) :
    ∃ a', a.remove index = some (a',
        (if index = a.len - 1 then none
         else some (a.entities.getD (a.len - 1) 0)),
        a.types.map fun ty =>
          (ty.id, readBytes a.data
            ((lookupOff a.offsets ty.id).getD 0 + ty.layout.size * index)
            ty.layout.size)) ∧
      a'.types = a.types ∧ a'.offsets = a.offsets ∧ a'.dataSize = a.dataSize ∧
      a'.len = a.len - 1 ∧
      a'.entities = (if index = a.len - 1 then a.entities
        else a.entities.set index (a.entities.getD (a.len - 1) 0)) ∧
      (∀ addr, (∀ ty ∈ a.types, ∀ o, lookupOff a.offsets ty.id = some o →
          addr < o + ty.layout.size * index ∨
            o + ty.layout.size * index + ty.layout.size ≤ addr) →
        a'.data addr = a.data addr) ∧
      (index = a.len - 1 → a'.data = a.data) ∧
      (index ≠ a.len - 1 → ∀ ty ∈ a.types, ∀ o,
        lookupOff a.offsets ty.id = some o →
        readBytes a'.data (o + ty.layout.size * index) ty.layout.size =
          readBytes a.data (o + ty.layout.size * (a.len - 1)) ty.layout.size) := by
  obtain ⟨df, heq, hconf, hmove, hid⟩ :=
    removeFold_spec a.offsets index (a.len - 1) a.entities.length hindex
      (by omega) a.types a.data hsome hdisj
  by_cases hil : index = a.len - 1
  · refine ⟨{ a with data := df, len := a.len - 1 }, ?_, rfl, rfl, rfl, rfl,
      ?_, hconf, fun _ => hid hil, fun h => absurd hil h⟩
    · unfold Archetype.remove
      simp only [heq, if_pos hil]
    · rw [if_pos hil]
  · refine ⟨{ a with
        data := df
        len := a.len - 1
        entities := a.entities.set index (a.entities.getD (a.len - 1) 0) },
      ?_, rfl, rfl, rfl, rfl, ?_, hconf, fun h => absurd h hil, fun _ => hmove hil⟩
    · unfold Archetype.remove
      simp only [heq, if_neg hil]
    · rw [if_neg hil]

lemma getD_set_self (l : List Nat) (i v : Nat) (h : i < l.length) :
    (l.set i v).getD i 0 = v := by
  induction l generalizing i with
  | nil => simp at h
  | cons x xs ih =>
    cases i with
    | zero => rfl
    | succ n =>
      rw [List.set_cons_succ, List.getD_cons_succ]
      exact ih n (by simpa using h)

lemma getD_set_ne (l : List Nat) (i j v : Nat) (h : i ≠ j) :
    (l.set i v).getD j 0 = l.getD j 0 := by
  induction l generalizing i j with
  | nil => rfl
  | cons x xs ih =>
    cases i with
    | zero =>
      cases j with
      | zero => exact absurd rfl h
      | succ m => rfl
    | succ n =>
      cases j with
      | zero => rfl
      | succ m =>
        rw [List.set_cons_succ, List.getD_cons_succ, List.getD_cons_succ]
        exact ih n m (by omega)

/-- C1: on an archetype with `n` live entities, `remove k` for
`k < n - 1` leaves the live count at `n - 1`, stores the last entity's id
at `entities[k]`, and returns that id; `remove (n-1)` leaves the live
count at `n - 1`, returns `none`, and leaves the entity-id array and the
whole component buffer (hence every earlier entity's component values)
unchanged. -/
theorem remove_swap_spec (a : Archetype) (k : Nat)
    (hsome : ∀ ty ∈ a.types, (lookupOff a.offsets ty.id).isSome = true)
    (hdisj : pairwiseDisjB a.offsets a.entities.length a.types = true)
    (hlen : 0 < a.len) (hcap : a.len ≤ a.entities.length) :
    (k < a.len - 1 →
      ∃ a' evs, a.remove k = some (a', some (a.entities.getD (a.len - 1) 0), evs) ∧
        a'.len = a.len - 1 ∧
        a'.entities.getD k 0 = a.entities.getD (a.len - 1) 0) ∧
    (∃ a' evs, a.remove (a.len - 1) = some (a', none, evs) ∧
      a'.len = a.len - 1 ∧ a'.entities = a.entities ∧ a'.data = a.data) := by
  constructor
  · intro hk
    obtain ⟨a', heq, _, _, _, hlen', hent, _, _, _⟩ :=
      remove_spec a k hsome hdisj hlen hcap (by omega)
    have hne : ¬ k = a.len - 1 := by omega
    rw [if_neg hne] at heq hent
    refine ⟨a', _, heq, hlen', ?_⟩
    rw [hent]
    exact getD_set_self a.entities k _ (by omega)
  · obtain ⟨a', heq, _, _, _, hlen', hent, _, hdata, _⟩ :=
      remove_spec a (a.len - 1) hsome hdisj hlen hcap (by omega)
    rw [if_pos rfl] at heq hent
    exact ⟨a', _, heq, hlen', hent, hdata rfl⟩

/-- A two-entity, one-column archetype used to witness C1. -/
def removeExample : Archetype :=
  { types := [⟨0, ⟨1, 1⟩⟩], offsets := [(0, 0)], len := 2,
    entities := [5, 6], data := fun a => a + 10, dataSize := 2 }

/-- Witness for C1 on `removeExample` at `k = 0`. -/
theorem remove_swap_spec_witness :
    (0 < removeExample.len - 1 →
      ∃ a' evs, removeExample.remove 0 =
          some (a', some (removeExample.entities.getD (removeExample.len - 1) 0), evs) ∧
        a'.len = removeExample.len - 1 ∧
        a'.entities.getD 0 0 = removeExample.entities.getD (removeExample.len - 1) 0) ∧
    (∃ a' evs, removeExample.remove (removeExample.len - 1) = some (a', none, evs) ∧
      a'.len = removeExample.len - 1 ∧ a'.entities = removeExample.entities ∧
      a'.data = removeExample.data) :=
  remove_swap_spec removeExample 0 (by decide) (by decide) (by decide) (by decide)

lemma pairwiseDisjB_pairs (offs : List (Nat × Nat)) (cap : Nat) :
    ∀ tys : List TypeInfo, pairwiseDisjB offs cap tys = true →
    ∀ t1 ∈ tys, ∀ t2 ∈ tys, t1 ≠ t2 →
      colDisjB offs cap t1 t2 = true ∨ colDisjB offs cap t2 t1 = true := by
  intro tys
  induction tys with
  | nil =>
    intro _ t1 h1
    exact absurd h1 (List.not_mem_nil t1)
  | cons t rest ih =>
    intro hp t1 h1 t2 h2 hne
    obtain ⟨hall, hrest⟩ := pairwiseDisjB_cons offs cap t rest hp
    rcases List.mem_cons.mp h1 with rfl | h1r
    · rcases List.mem_cons.mp h2 with rfl | h2r
      · exact absurd rfl hne
      · exact Or.inl (hall t2 h2r)
    · rcases List.mem_cons.mp h2 with rfl | h2r
      · exact Or.inr (hall t1 h1r)
      · exact ih hrest t1 h1r t2 h2r hne

lemma col_ranges_disjoint (offs : List (Nat × Nat)) (cap : Nat)
    (tys : List TypeInfo) (hdisj : pairwiseDisjB offs cap tys = true)
    (t1 : TypeInfo) (ht1 : t1 ∈ tys) (t2 : TypeInfo) (ht2 : t2 ∈ tys)
    (o1 o2 : Nat) (h1 : lookupOff offs t1.id = some o1)
    (h2 : lookupOff offs t2.id = some o2) (hne : t1 ≠ t2) :
    o1 + t1.layout.size * cap ≤ o2 ∨ o2 + t2.layout.size * cap ≤ o1 := by
  rcases pairwiseDisjB_pairs offs cap tys hdisj t1 ht1 t2 ht2 hne with hcd | hcd
  · exact colDisjB_spec offs cap t1 t2 hcd o1 o2 h1 h2
  · rcases colDisjB_spec offs cap t2 t1 hcd o2 o1 h2 h1 with h | h
    · exact Or.inr h
    · exact Or.inl h

/-- Two slot ranges never overlap unless they are the same slot of the
same column. -/
lemma slot_ranges_disjoint (offs : List (Nat × Nat)) (cap : Nat)
    (tys : List TypeInfo) (hdisj : pairwiseDisjB offs cap tys = true)
    (t1 : TypeInfo) (ht1 : t1 ∈ tys) (t2 : TypeInfo) (ht2 : t2 ∈ tys)
    (o1 o2 s1 s2 : Nat) (h1 : lookupOff offs t1.id = some o1)
    (h2 : lookupOff offs t2.id = some o2) (hs1 : s1 < cap) (hs2 : s2 < cap)
    (hne : t1 ≠ t2 ∨ s1 ≠ s2) :
    o1 + t1.layout.size * s1 + t1.layout.size ≤ o2 + t2.layout.size * s2 ∨
      o2 + t2.layout.size * s2 + t2.layout.size ≤ o1 + t1.layout.size * s1 := by
  by_cases h12 : t1 = t2
  · subst h12
    have ho : o1 = o2 := by
      rw [h1] at h2
      exact Option.some_inj.mp h2
    subst ho
    have hs : s1 ≠ s2 := by
      rcases hne with h | h
      · exact absurd rfl h
      · exact h
    exact sameCol_slot o1 t1.layout.size s1 s2 hs
  · have hor := col_ranges_disjoint offs cap tys hdisj t1 ht1 t2 ht2 o1 o2 h1 h2 h12
    have m1 := Nat.mul_le_mul_left t1.layout.size (show s1 + 1 ≤ cap from hs1)
    have m2 := Nat.mul_le_mul_left t2.layout.size (show s2 + 1 ≤ cap from hs2)
    rw [Nat.mul_succ] at m1 m2
    omega

/-- The loop of `impl Drop for Archetype`:
`for i in 0..len { if entities[i] != !0 { remove(i) } }`, over a
pre-computed index list (the range bound is the original `len`). -/
def dropLoop : Archetype → List Nat → Option (Archetype × List DropEvent)
  | a, [] => some (a, [])
  | a, i :: rest =>
    if a.entities.getD i 0 ≠ SENTINEL then
      match a.remove i with
      | none => none
      | some (a', _, evs) =>
        match dropLoop a' rest with
        | none => none
        | some (af, evs') => some (af, evs ++ evs')
    else dropLoop a rest

/-- Model of `Drop::drop` for `Archetype`. -/
def Archetype.teardown (a : Archetype) : Option (Archetype × List DropEvent) :=
  dropLoop a (List.range a.len)

lemma dropLoop_spec (a : Archetype)
    (hsome : ∀ ty ∈ a.types, (lookupOff a.offsets ty.id).isSome = true)
    (hdisj : pairwiseDisjB a.offsets a.entities.length a.types = true)
    (hcap : a.len ≤ a.entities.length)
    (hlive : ∀ i, i < a.len → a.entities.getD i 0 ≠ SENTINEL) :
    ∀ (m k : Nat), k + m = a.len →
    ∀ b : Archetype,
      b.types = a.types → b.offsets = a.offsets →
      b.entities.length = a.entities.length → b.len = a.len - k →
      (∀ s, k ≤ s → s < a.len → b.entities.getD s 0 = a.entities.getD s 0) →
      (∀ ty ∈ a.types, ∀ o, lookupOff a.offsets ty.id = some o →
        ∀ s, k ≤ s → s < a.entities.length →
        readBytes b.data (o + ty.layout.size * s) ty.layout.size =
          readBytes a.data (o + ty.layout.size * s) ty.layout.size) →
      ∃ b', dropLoop b (List.range' k m) = some (b',
          ((List.range' k m).map fun i => a.types.map fun ty =>
            (ty.id, readBytes a.data
              ((lookupOff a.offsets ty.id).getD 0 + ty.layout.size * i)
              ty.layout.size)).flatten) ∧
        b'.len = 0 := by
  intro m
  induction m with
  | zero =>
    intro k hk b _ _ _ hL _ _
    refine ⟨b, rfl, ?_⟩
    rw [hL]
    omega
  | succ n ih =>
    intro k hk b hT hO hC hL hE hD
    have hkl : k < a.len := by omega
    have hguard : b.entities.getD k 0 ≠ SENTINEL := by
      rw [hE k (le_refl k) hkl]
      exact hlive k hkl
    have hbsome : ∀ ty ∈ b.types, (lookupOff b.offsets ty.id).isSome = true := by
      rw [hT, hO]
      exact hsome
    have hbdisj : pairwiseDisjB b.offsets b.entities.length b.types = true := by
      rw [hT, hO, hC]
      exact hdisj
    obtain ⟨b1, heq, hT1, hO1, _, hlen1, hent1, hconf1, _, _⟩ :=
      remove_spec b k hbsome hbdisj (by omega) (by rw [hC]; omega) (by rw [hC]; omega)
    have hevk : (b.types.map fun ty =>
        (ty.id, readBytes b.data
          ((lookupOff b.offsets ty.id).getD 0 + ty.layout.size * k)
          ty.layout.size)) =
        a.types.map fun ty =>
          (ty.id, readBytes a.data
            ((lookupOff a.offsets ty.id).getD 0 + ty.layout.size * k)
            ty.layout.size) := by
      rw [hT, hO]
      apply List.map_congr_left
      intro t ht
      obtain ⟨o, ho⟩ := Option.isSome_iff_exists.mp (hsome t ht)
      rw [ho, Option.getD_some]
      exact congrArg _ (hD t ht o ho k (le_refl k) (by omega))
    have hC1 : b1.entities.length = a.entities.length := by
      rw [hent1]
      by_cases h : k = b.len - 1
      · rw [if_pos h, hC]
      · rw [if_neg h, List.length_set, hC]
    have hL1 : b1.len = a.len - (k + 1) := by
      rw [hlen1, hL]
      omega
    have hE1 : ∀ s, k + 1 ≤ s → s < a.len →
        b1.entities.getD s 0 = a.entities.getD s 0 := by
      intro s hs1 hs2
      have hstep : b1.entities.getD s 0 = b.entities.getD s 0 := by
        rw [hent1]
        by_cases h : k = b.len - 1
        · rw [if_pos h]
        · rw [if_neg h]
          exact getD_set_ne _ k s _ (by omega)
      rw [hstep]
      exact hE s (by omega) hs2
    have hD1 : ∀ ty ∈ a.types, ∀ o, lookupOff a.offsets ty.id = some o →
        ∀ s, k + 1 ≤ s → s < a.entities.length →
        readBytes b1.data (o + ty.layout.size * s) ty.layout.size =
          readBytes a.data (o + ty.layout.size * s) ty.layout.size := by
      intro t ht o ho s hs1 hs2
      have hb1b : readBytes b1.data (o + t.layout.size * s) t.layout.size =
          readBytes b.data (o + t.layout.size * s) t.layout.size := by
        apply readBytes_congr
        intro j hj
        apply hconf1
        intro t2 ht2 o2 ho2
        rw [hO] at ho2
        rw [hT] at ht2
        have hd2 := slot_ranges_disjoint a.offsets a.entities.length a.types
          hdisj t ht t2 ht2 o o2 s k ho ho2 hs2 (by omega) (Or.inr (by omega))
        omega
      rw [hb1b]
      exact hD t ht o ho s (by omega) hs2
    obtain ⟨b', hloop, hlen'⟩ := ih (k + 1) (by omega) b1 (hT1.trans hT)
      (hO1.trans hO) hC1 hL1 hE1 hD1
    refine ⟨b', ?_, hlen'⟩
    have hr : List.range' k (n + 1) = k :: List.range' (k + 1) n := rfl
    rw [hr]
    unfold dropLoop
    rw [if_pos hguard]
    simp only [heq, hloop, hevk, List.map_cons, List.flatten_cons]

/-- C3: destroying an archetype calls `remove` on every live index in
ascending order; the teardown succeeds, leaves no live entities, and its
drop events are exactly one destructor call per live slot per registered
type, in ascending slot order, each receiving the value's original bytes —
every live value is destroyed exactly once and none is leaked. -/
theorem teardown_drops_each_value_once (a : Archetype)
    (hsome : ∀ ty ∈ a.types, (lookupOff a.offsets ty.id).isSome = true)
    (hdisj : pairwiseDisjB a.offsets a.entities.length a.types = true)
    (hcap : a.len ≤ a.entities.length)
    (hlive : ∀ i, i < a.len → a.entities.getD i 0 ≠ SENTINEL) :
    ∃ a', a.teardown = some (a',
        ((List.range a.len).map fun i => a.types.map fun ty =>
          (ty.id, readBytes a.data
            ((lookupOff a.offsets ty.id).getD 0 + ty.layout.size * i)
            ty.layout.size)).flatten) ∧
      a'.len = 0 := by
  have h := dropLoop_spec a hsome hdisj hcap hlive a.len 0 (by omega) a rfl rfl
    rfl (by omega) (fun _ _ _ => rfl) (fun t _ o _ s _ _ => rfl)
  unfold Archetype.teardown
  rw [List.range_eq_range']
  exact h

/-- A two-column, two-entity archetype used to witness C3. -/
def teardownExample : Archetype :=
  { types := [⟨0, ⟨1, 1⟩⟩, ⟨1, ⟨2, 2⟩⟩], offsets := [(0, 0), (1, 4)], len := 2,
    entities := [7, 8, 9], data := fun a => a + 1, dataSize := 10 }

/-- Witness for C3 on `teardownExample`. -/
theorem teardown_drops_each_value_once_witness :
    ∃ a', teardownExample.teardown = some (a',
        ((List.range teardownExample.len).map fun i =>
          teardownExample.types.map fun ty =>
            (ty.id, readBytes teardownExample.data
              ((lookupOff teardownExample.offsets ty.id).getD 0 +
                ty.layout.size * i)
              ty.layout.size)).flatten) ∧
      a'.len = 0 :=
  teardown_drops_each_value_once teardownExample (by decide) (by decide)
    (by decide) (by decide)

/-- Model of `Archetype::put_dynamic`: copy `layout.size` bytes of the component
(read from buffer `src` at `srcOff`) into this archetype's column for type
id `t` at slot `index`; `none` models the `unwrap` panic on a missing
offset. -/
def Archetype.put_dynamic (tgt : Archetype) (src : Nat → Nat) (srcOff : Nat)
    (t : Nat) (layout : Layout) (index : Nat) : Option Archetype :=
  match lookupOff tgt.offsets t with
  | none => none
  | some offset =>
    some { tgt with data := writeBytesFrom tgt.data (offset + layout.size * index) src srcOff layout.size }

/-- The per-type loop body of `Archetype::move_to`: when the destination
registers the type, `put_dynamic` transplants the raw bytes (tolerating
missing components otherwise); then — when `index != last` — the last
slot's bytes relocate into `index`.  No destructor is ever invoked. -/
def moveToFold (offs : List (Nat × Nat)) (index last tgtIndex : Nat) :
    List TypeInfo → (Nat → Nat) → Archetype → Option ((Nat → Nat) × Archetype)
  | [], d, tgt => some (d, tgt)
  | ty :: rest, d, tgt =>
    match lookupOff offs ty.id with
    | none => none
    | some base =>
      match (if (lookupOff tgt.offsets ty.id).isSome then
               tgt.put_dynamic d (base + ty.layout.size * index) ty.id
                 ty.layout tgtIndex
             else some tgt) with
      | none => none
      | some tgt2 =>
        moveToFold offs index last tgtIndex rest
          (if index = last then d
           else writeBytesFrom d (base + ty.layout.size * index) d
             (base + ty.layout.size * last) ty.layout.size) tgt2

/-- Model of `Archetype::move_to` (reached through `EntityComponentSet::store`):
transplant the entity at `index` into `target` slot `target_index`, then
swap-remove compact the source.  The returned drop-event list records the
destructor invocations performed — there are none. -/
def Archetype.moveTo (a : Archetype) (index : Nat) (tgt : Archetype)
    (tgtIndex : Nat) : Option (Archetype × Archetype × List DropEvent) :=
  match moveToFold a.offsets index (a.len - 1) tgtIndex a.types a.data tgt with
  | none => none
  | some (d, tgt2) =>
    if index = a.len - 1 then
      some ({ a with data := d, len := a.len - 1 }, tgt2, [])
    else
      some ({ a with
              data := d
              len := a.len - 1
              entities := a.entities.set index (a.entities.getD (a.len - 1) 0) },
        tgt2, [])

lemma moveToFold_spec (offs : List (Nat × Nat)) (index last tgtIndex cap : Nat)
    (hindex : index < cap) (hlast : last < cap) :
    ∀ (tys : List TypeInfo) (d : Nat → Nat) (tgt : Archetype),
    (∀ ty ∈ tys, (lookupOff offs ty.id).isSome = true) →
    pairwiseDisjB offs cap tys = true →
    pairwiseDisjB tgt.offsets (tgtIndex + 1) tys = true →
    ∃ df tgt2, moveToFold offs index last tgtIndex tys d tgt = some (df, tgt2) ∧
      tgt2.types = tgt.types ∧ tgt2.offsets = tgt.offsets ∧
      tgt2.len = tgt.len ∧ tgt2.entities = tgt.entities ∧
      tgt2.dataSize = tgt.dataSize ∧
      (∀ ty ∈ tys, ∀ o t, lookupOff offs ty.id = some o →
        lookupOff tgt.offsets ty.id = some t →
        readBytes tgt2.data (t + ty.layout.size * tgtIndex) ty.layout.size =
          readBytes d (o + ty.layout.size * index) ty.layout.size) ∧
      (∀ addr, (∀ ty ∈ tys, ∀ t, lookupOff tgt.offsets ty.id = some t →
          addr < t + ty.layout.size * tgtIndex ∨
            t + ty.layout.size * tgtIndex + ty.layout.size ≤ addr) →
        tgt2.data addr = tgt.data addr) ∧
      (∀ addr, (∀ ty ∈ tys, ∀ o, lookupOff offs ty.id = some o →
          addr < o + ty.layout.size * index ∨
            o + ty.layout.size * index + ty.layout.size ≤ addr) →
        df addr = d addr) ∧
      (index ≠ last → ∀ ty ∈ tys, ∀ o, lookupOff offs ty.id = some o →
        readBytes df (o + ty.layout.size * index) ty.layout.size =
          readBytes d (o + ty.layout.size * last) ty.layout.size) ∧
      (index = last → df = d) := by
  intro tys
  induction tys with
  | nil =>
    intro d tgt _ _ _
    exact ⟨d, tgt, rfl, rfl, rfl, rfl, rfl, rfl,
      fun ty ht => absurd ht (List.not_mem_nil ty),
      fun _ _ => rfl, fun _ _ => rfl,
      fun _ ty ht => absurd ht (List.not_mem_nil ty), fun _ => rfl⟩
  | cons ty rest ih =>
    intro d tgt hsome hdisj htdisj
    obtain ⟨hd2, hrest⟩ := pairwiseDisjB_cons offs cap ty rest hdisj
    obtain ⟨ht2, htrest⟩ := pairwiseDisjB_cons tgt.offsets (tgtIndex + 1) ty rest htdisj
    obtain ⟨base, hbase⟩ := Option.isSome_iff_exists.mp (hsome ty (by simp))
    have hsrest : ∀ t ∈ rest, (lookupOff offs t.id).isSome = true :=
      fun t htm => hsome t (by simp [htm])
    set d1 := (if index = last then d
      else writeBytesFrom d (base + ty.layout.size * index) d
        (base + ty.layout.size * last) ty.layout.size) with hd1
    have hd1cols : ∀ t2, t2 ∈ rest → ∀ o2, lookupOff offs t2.id = some o2 →
        ∀ s2, s2 < cap →
        readBytes d1 (o2 + t2.layout.size * s2) t2.layout.size =
          readBytes d (o2 + t2.layout.size * s2) t2.layout.size := by
      intro t2 htm o2 ho2 s2 hs2
      rw [hd1]
      by_cases hil : index = last
      · rw [if_pos hil]
      · rw [if_neg hil]
        have hsl := colDisjB_slot offs cap ty t2 base o2 index s2
          (hd2 t2 htm) hbase ho2 hindex hs2
        exact readBytes_write_disjoint _ _ _ _ _ _ _ (by omega)
    have hd1point : ∀ addr,
        (addr < base + ty.layout.size * index ∨
          base + ty.layout.size * index + ty.layout.size ≤ addr) →
        d1 addr = d addr := by
      intro addr h
      rw [hd1]
      by_cases hil : index = last
      · rw [if_pos hil]
      · rw [if_neg hil]
        exact writeBytesFrom_outside _ _ _ _ _ _ h
    have hd1self : index ≠ last →
        readBytes d1 (base + ty.layout.size * index) ty.layout.size =
          readBytes d (base + ty.layout.size * last) ty.layout.size := by
      intro hil
      rw [hd1, if_neg hil]
      exact readBytes_write_self _ _ _ _ _
    have hd1id : index = last → d1 = d := fun hil => by rw [hd1, if_pos hil]
    by_cases htp : (lookupOff tgt.offsets ty.id).isSome = true
    · obtain ⟨toff, htoff⟩ := Option.isSome_iff_exists.mp htp
      set tgt1 : Archetype := { tgt with data := writeBytesFrom tgt.data (toff + ty.layout.size * tgtIndex) d (base + ty.layout.size * index) ty.layout.size } with htgt1
      have hput : tgt.put_dynamic d (base + ty.layout.size * index) ty.id
          ty.layout tgtIndex = some tgt1 := by
        unfold Archetype.put_dynamic
        simp only [htoff]
      obtain ⟨df, tgt2, heq, hty2, hof2, hlen2, hent2, hds2, hshared,
          htuntouched, hconf, hmove, hid⟩ :=
        ih d1 tgt1 hsrest hrest htrest
      refine ⟨df, tgt2, ?_, hty2, hof2, hlen2, hent2, hds2, ?_, ?_, ?_, ?_, ?_⟩
      · unfold moveToFold
        simp only [hbase, if_pos htp, hput, ← hd1]
        exact heq
      · -- every shared column's bytes land in the destination slot
        intro t htm o toff2 ho htoff2
        rcases List.mem_cons.mp htm with rfl | htm'
        · have ho' : o = base := by
            rw [hbase] at ho
            exact (Option.some_inj.mp ho).symm
          have ht' : toff2 = toff := by
            rw [htoff] at htoff2
            exact (Option.some_inj.mp htoff2).symm
          rw [ho', ht']
          have hstep : readBytes tgt2.data (toff + t.layout.size * tgtIndex)
              t.layout.size =
              readBytes tgt1.data (toff + t.layout.size * tgtIndex)
                t.layout.size := by
            apply readBytes_congr
            intro j hj
            apply htuntouched
            intro t2 htm2 t2off ht2off
            have hsl := colDisjB_slot tgt.offsets (tgtIndex + 1) t t2 toff t2off
              tgtIndex tgtIndex (ht2 t2 htm2) htoff ht2off (by omega) (by omega)
            omega
          rw [hstep]
          exact readBytes_write_self tgt.data d
            (toff + t.layout.size * tgtIndex)
            (base + t.layout.size * index) t.layout.size
        · rw [hshared t htm' o toff2 ho htoff2]
          exact hd1cols t htm' o ho index hindex
      · -- the rest of the destination buffer is untouched
        intro addr havoid
        have h1 : tgt2.data addr = tgt1.data addr :=
          htuntouched addr (fun t2 htm2 t2off ht2off =>
            havoid t2 (by simp [htm2]) t2off ht2off)
        rw [h1]
        exact writeBytesFrom_outside tgt.data d
          (toff + ty.layout.size * tgtIndex) (base + ty.layout.size * index)
          ty.layout.size addr
          (by have := havoid ty (by simp) toff htoff; omega)
      · -- source writes confined to slot `index` of each column
        intro addr havoid
        have h1 : df addr = d1 addr :=
          hconf addr (fun t2 htm2 o2 ho2 => havoid t2 (by simp [htm2]) o2 ho2)
        rw [h1]
        exact hd1point addr (havoid ty (by simp) base hbase)
      · -- the last slot's bytes relocate into the vacated index
        intro hil t htm o1 ho1
        rcases List.mem_cons.mp htm with rfl | htm'
        · have ho' : o1 = base := by
            rw [hbase] at ho1
            exact (Option.some_inj.mp ho1).symm
          rw [ho']
          have hstep : readBytes df (base + t.layout.size * index) t.layout.size =
              readBytes d1 (base + t.layout.size * index) t.layout.size := by
            apply readBytes_congr
            intro j hj
            apply hconf
            intro t2 htm2 o2 ho2
            have hsl := colDisjB_slot offs cap t t2 base o2 index index
              (hd2 t2 htm2) hbase ho2 hindex hindex
            omega
          rw [hstep]
          exact hd1self hil
        · rw [hmove hil t htm' o1 ho1]
          exact hd1cols t htm' o1 ho1 last hlast
      · intro hil
        rw [hid hil]
        exact hd1id hil
    · obtain ⟨df, tgt2, heq, hty2, hof2, hlen2, hent2, hds2, hshared,
          htuntouched, hconf, hmove, hid⟩ :=
        ih d1 tgt hsrest hrest htrest
      refine ⟨df, tgt2, ?_, hty2, hof2, hlen2, hent2, hds2, ?_, ?_, ?_, ?_, ?_⟩
      · unfold moveToFold
        simp only [hbase, if_neg htp, ← hd1]
        exact heq
      · intro t htm o toff2 ho htoff2
        rcases List.mem_cons.mp htm with rfl | htm'
        · exact absurd (Option.isSome_iff_exists.mpr ⟨toff2, htoff2⟩) htp
        · rw [hshared t htm' o toff2 ho htoff2]
          exact hd1cols t htm' o ho index hindex
      · intro addr havoid
        exact htuntouched addr (fun t2 htm2 t2off ht2off =>
          havoid t2 (by simp [htm2]) t2off ht2off)
      · intro addr havoid
        have h1 : df addr = d1 addr :=
          hconf addr (fun t2 htm2 o2 ho2 => havoid t2 (by simp [htm2]) o2 ho2)
        rw [h1]
        exact hd1point addr (havoid ty (by simp) base hbase)
      · intro hil t htm o1 ho1
        rcases List.mem_cons.mp htm with rfl | htm'
        · have ho' : o1 = base := by
            rw [hbase] at ho1
            exact (Option.some_inj.mp ho1).symm
          rw [ho']
          have hstep : readBytes df (base + t.layout.size * index) t.layout.size =
              readBytes d1 (base + t.layout.size * index) t.layout.size := by
            apply readBytes_congr
            intro j hj
            apply hconf
            intro t2 htm2 o2 ho2
            have hsl := colDisjB_slot offs cap t t2 base o2 index index
              (hd2 t2 htm2) hbase ho2 hindex hindex
            omega
          rw [hstep]
          exact hd1self hil
        · rw [hmove hil t htm' o1 ho1]
          exact hd1cols t htm' o1 ho1 last hlast
      · intro hil
        rw [hid hil]
        exact hd1id hil

/-- C4: a cross-archetype move of the live entity at `index` copies, for
every source type also registered in the destination, the value's raw
bytes unchanged into the destination slot; types absent from the
destination are abandoned; no destructor is invoked (the operation's
drop-event list is empty) and nothing else of the destination changes;
the source then performs the same swap-remove compaction as `remove` —
last slot's bytes and entity id relocated into the vacated index, live
count decremented — again without any destructor call. -/
theorem moveTo_transplants_shared_columns (a : Archetype) (index : Nat)
    (tgt : Archetype) (tgtIndex : Nat)
    (hsome : ∀ ty ∈ a.types, (lookupOff a.offsets ty.id).isSome = true)
    (hdisj : pairwiseDisjB a.offsets a.entities.length a.types = true)
    (htdisj : pairwiseDisjB tgt.offsets (tgtIndex + 1) a.types = true)
    (hlen : 0 < a.len) (hcap : a.len ≤ a.entities.length)
    (hindex : index < a.len) :
    ∃ a' tgt', a.moveTo index tgt tgtIndex = some (a', tgt', []) ∧
      (∀ ty ∈ a.types, ∀ o t, lookupOff a.offsets ty.id = some o →
        lookupOff tgt.offsets ty.id = some t →
        readBytes tgt'.data (t + ty.layout.size * tgtIndex) ty.layout.size =
          readBytes a.data (o + ty.layout.size * index) ty.layout.size) ∧
      tgt'.types = tgt.types ∧ tgt'.offsets = tgt.offsets ∧
      tgt'.len = tgt.len ∧ tgt'.entities = tgt.entities ∧
      (∀ addr, (∀ ty ∈ a.types, ∀ t, lookupOff tgt.offsets ty.id = some t →
          addr < t + ty.layout.size * tgtIndex ∨
            t + ty.layout.size * tgtIndex + ty.layout.size ≤ addr) →
        tgt'.data addr = tgt.data addr) ∧
      a'.len = a.len - 1 ∧ a'.types = a.types ∧ a'.offsets = a.offsets ∧
      (index ≠ a.len - 1 →
        a'.entities.getD index 0 = a.entities.getD (a.len - 1) 0 ∧
        ∀ ty ∈ a.types, ∀ o, lookupOff a.offsets ty.id = some o →
          readBytes a'.data (o + ty.layout.size * index) ty.layout.size =
            readBytes a.data (o + ty.layout.size * (a.len - 1))
              ty.layout.size) ∧
      (index = a.len - 1 → a'.data = a.data ∧ a'.entities = a.entities) := by
  obtain ⟨df, tgt2, heq, hty2, hof2, hlen2, hent2, _, hshared, htuntouched,
      _, hmove, hid⟩ :=
    moveToFold_spec a.offsets index (a.len - 1) tgtIndex a.entities.length
      (by omega) (by omega) a.types a.data tgt hsome hdisj htdisj
  by_cases hil : index = a.len - 1
  · refine ⟨{ a with data := df, len := a.len - 1 }, tgt2, ?_, hshared, hty2,
      hof2, hlen2, hent2, htuntouched, rfl, rfl, rfl,
      fun h => absurd hil h, fun _ => ⟨hid hil, rfl⟩⟩
    unfold Archetype.moveTo
    simp only [heq, if_pos hil]
  · refine ⟨{ a with
        data := df
        len := a.len - 1
        entities := a.entities.set index (a.entities.getD (a.len - 1) 0) },
      tgt2, ?_, hshared, hty2, hof2, hlen2, hent2, htuntouched, rfl, rfl, rfl,
      fun _ => ⟨getD_set_self a.entities index _ (by omega), hmove hil⟩,
      fun h => absurd h hil⟩
    unfold Archetype.moveTo
    simp only [heq, if_neg hil]

/-- Source archetype (two 1-byte columns) used to witness C4. -/
def moveSrcExample : Archetype :=
  { types := [⟨0, ⟨1, 1⟩⟩, ⟨1, ⟨1, 1⟩⟩], offsets := [(0, 0), (1, 2)], len := 2,
    entities := [5, 6], data := fun a => a + 3, dataSize := 4 }

/-- Destination archetype (only the first column) used to witness C4. -/
def moveTgtExample : Archetype :=
  { types := [⟨0, ⟨1, 1⟩⟩], offsets := [(0, 0)], len := 1,
    entities := [9, 0], data := fun _ => 0, dataSize := 2 }

/-- Witness for C4: move entity 0 of `moveSrcExample` into slot 1 of
`moveTgtExample`, which lacks the second component type. -/
theorem moveTo_transplants_shared_columns_witness :
    ∃ a' tgt', moveSrcExample.moveTo 0 moveTgtExample 1 = some (a', tgt', []) ∧
      (∀ ty ∈ moveSrcExample.types, ∀ o t,
        lookupOff moveSrcExample.offsets ty.id = some o →
        lookupOff moveTgtExample.offsets ty.id = some t →
        readBytes tgt'.data (t + ty.layout.size * 1) ty.layout.size =
          readBytes moveSrcExample.data (o + ty.layout.size * 0)
            ty.layout.size) ∧
      tgt'.types = moveTgtExample.types ∧
      tgt'.offsets = moveTgtExample.offsets ∧
      tgt'.len = moveTgtExample.len ∧
      tgt'.entities = moveTgtExample.entities ∧
      (∀ addr, (∀ ty ∈ moveSrcExample.types, ∀ t,
          lookupOff moveTgtExample.offsets ty.id = some t →
          addr < t + ty.layout.size * 1 ∨
            t + ty.layout.size * 1 + ty.layout.size ≤ addr) →
        tgt'.data addr = moveTgtExample.data addr) ∧
      a'.len = moveSrcExample.len - 1 ∧
      a'.types = moveSrcExample.types ∧
      a'.offsets = moveSrcExample.offsets ∧
      (0 ≠ moveSrcExample.len - 1 →
        a'.entities.getD 0 0 =
          moveSrcExample.entities.getD (moveSrcExample.len - 1) 0 ∧
        ∀ ty ∈ moveSrcExample.types, ∀ o,
          lookupOff moveSrcExample.offsets ty.id = some o →
          readBytes a'.data (o + ty.layout.size * 0) ty.layout.size =
            readBytes moveSrcExample.data
              (o + ty.layout.size * (moveSrcExample.len - 1))
              ty.layout.size) ∧
      (0 = moveSrcExample.len - 1 →
        a'.data = moveSrcExample.data ∧
        a'.entities = moveSrcExample.entities) :=
  moveTo_transplants_shared_columns moveSrcExample 0 moveTgtExample 1
    (by decide) (by decide) (by decide) (by decide) (by decide) (by decide)

end Hecs
